import Mathlib

/-!
Verification development for the File-Watcher repository.

Shallow embedding of the stable-copy synchronization engine:
  * `src/file_monitor.py`  — `FileSyncHandler` (stability wait, debounce,
    copy with retry/backoff) and `FileMonitor`;
  * `src/config_manager.py` — `ConfigManager` (validation, project
    identification, enabled-mapping query).

Real time is modelled discretely: one loop iteration of the polling loop in
`_wait_for_file_ready` corresponds to one `checkInterval` tick, so the
`timeout` budget becomes a maximum number of polls (`fuel`).  Filesystem
behaviour is an explicit environment: what each poll observes, whether each
open/stat/copy call succeeds or raises, and so on.  Python floats carrying
times and durations are modelled as rationals.
-/

namespace FileWatcher

/-! ## Stability detector — `FileSyncHandler._wait_for_file_ready`
    (src/file_monitor.py lines 98-161) and `_is_file_unlocked` (163-185).

One poll of the loop body observes the file as either missing
(`file_path.exists()` false, line 122), raising `OSError` from `stat`
(line 148), or having a definite size (line 127).  The read-write open
probe of `_is_file_unlocked` at poll `i` is the boolean `unl i`. -/

/-- What one poll of the stability loop observes about the file. -/
inductive Obs where
  /-- `file_path.exists()` returned false (line 122). -/
  | missing : Obs
  /-- `stat` raised `OSError` (caught at line 148). -/
  | ioError : Obs
  /-- `stat().st_size` returned `n` (line 127). -/
  | size : Nat → Obs
deriving DecidableEq, Repr

/-- The loop-local state of `_wait_for_file_ready`: `last_size` (initialised
to `-1`, line 116) and `stable_count` (line 117). -/
structure WaitState where
  lastSize : Int
  stableCount : Nat
deriving DecidableEq, Repr

/-- `self.stable_check_count = 3` (line 44). -/
def stable_check_count : Nat := 3

/-- State update of one poll, lines 120-152: a missing file just sleeps and
continues; an `OSError` resets `stable_count` to 0 (line 150) keeping
`last_size`; an observed size either extends the stable streak (line 131) or
resets it and records the new size (lines 141-142). -/
def waitStep (s : WaitState) (o : Obs) : WaitState :=
  match o with
  | .missing => s
  | .ioError => ⟨s.lastSize, 0⟩
  | .size n => if (n : Int) = s.lastSize then ⟨s.lastSize, s.stableCount + 1⟩ else ⟨(n : Int), 0⟩

/-- The early-return test of one poll, lines 130-138: the observed size equals
`last_size`, the incremented streak reaches `stable_check_count`, and the
read-write open probe `_is_file_unlocked` succeeds. -/
def readyNow (s : WaitState) (o : Obs) (u : Bool) : Bool :=
  match o with
  | .size n => decide ((n : Int) = s.lastSize) && decide (stable_check_count ≤ s.stableCount + 1) && u
  | _ => false

/-- The polling loop of `_wait_for_file_ready` (lines 119-157).  `fuel` is the
number of polls the `timeout` budget allows; `i` numbers the current poll. -/
def waitLoop (obs : Nat → Obs) (unl : Nat → Bool) : Nat → Nat → WaitState → Bool
  | 0, _, _ => false
  | fuel + 1, i, s =>
    if readyNow s (obs i) (unl i) then true
    else waitLoop obs unl fuel (i + 1) (waitStep s (obs i))

/-- `_wait_for_file_ready`: after the initial delay the loop starts from
`last_size = -1`, `stable_count = 0` (lines 116-117); on timeout it returns
false (line 157). -/
def wait_for_file_ready (obs : Nat → Obs) (unl : Nat → Bool) (fuel : Nat) : Bool :=
  waitLoop obs unl fuel 0 ⟨-1, 0⟩

/-- The loop state just before poll `i`, as a pure trajectory. -/
def waitStateAt (obs : Nat → Obs) : Nat → WaitState
  | 0 => ⟨-1, 0⟩
  | i + 1 => waitStep (waitStateAt obs i) (obs i)

/-- Poll `i` is the poll at which the loop would return true. -/
def readyAt (obs : Nat → Obs) (unl : Nat → Bool) (i : Nat) : Bool :=
  readyNow (waitStateAt obs i) (obs i) (unl i)

/-- Modelled from the spec's words for claim C1: the stability wait returns
true iff, within the poll budget, the file's size is observed identical
across 3 consecutive polls and immediately afterwards the open probe
succeeds. -/
def claimC1Statement (obs : Nat → Obs) (unl : Nat → Bool) (fuel : Nat) : Prop :=
  wait_for_file_ready obs unl fuel = true ↔
    ∃ i, i + 2 < fuel ∧ (∃ n, obs i = Obs.size n ∧ obs (i + 1) = Obs.size n ∧
      obs (i + 2) = Obs.size n) ∧ unl (i + 2) = true

/-- Modelled from the spec's words for claim C2: a variant of the polling
loop in which a missing-file poll also resets the stable streak to zero. -/
def waitStepAsSpecified (s : WaitState) (o : Obs) : WaitState :=
  match o with
  | .missing => ⟨s.lastSize, 0⟩
  | .ioError => ⟨s.lastSize, 0⟩
  | .size n => if (n : Int) = s.lastSize then ⟨s.lastSize, s.stableCount + 1⟩ else ⟨(n : Int), 0⟩

/-- Modelled from the spec's words for claim C2: the polling loop built on
`waitStepAsSpecified`. -/
def waitLoopAsSpecified (obs : Nat → Obs) (unl : Nat → Bool) : Nat → Nat → WaitState → Bool
  | 0, _, _ => false
  | fuel + 1, i, s =>
    if readyNow s (obs i) (unl i) then true
    else waitLoopAsSpecified obs unl fuel (i + 1) (waitStepAsSpecified s (obs i))

/-- Modelled from the spec's words for claim C2: `wait_for_file_ready` as the
claim describes it, with missing-file polls resetting the streak. -/
def wait_for_file_ready_as_specified (obs : Nat → Obs) (unl : Nat → Bool) (fuel : Nat) : Bool :=
  waitLoopAsSpecified obs unl fuel 0 ⟨-1, 0⟩

/-- Observation trace used in the C1 counterexample: every poll sees size 5. -/
def c1obs : Nat → Obs := fun _ => Obs.size 5

/-- Open-probe trace used in the C1 and C2 counterexamples: always succeeds. -/
def cxUnl : Nat → Bool := fun _ => true

/-- Observation trace used in the C2 counterexample: size 5 on every poll
except poll 3, where the file is momentarily missing. -/
def c2obs : Nat → Obs := fun i => if i = 3 then Obs.missing else Obs.size 5

section StabilityTheorems

/-- Unfolding the loop one poll at a time along the pure trajectory. -/
theorem waitLoop_trajectory (obs : Nat → Obs) (unl : Nat → Bool) :
    ∀ fuel i, waitLoop obs unl fuel i (waitStateAt obs i) = true ↔
      ∃ j, j < fuel ∧ readyAt obs unl (i + j) = true := by
  intro fuel
  induction fuel with
  | zero =>
    intro i
    simp [waitLoop]
  | succ fuel ih =>
    intro i
    rw [waitLoop]
    by_cases h : readyNow (waitStateAt obs i) (obs i) (unl i) = true
    · simp only [h, if_true]
      constructor
      · intro _
        exact ⟨0, Nat.succ_pos _, by simpa [readyAt] using h⟩
      · intro _; trivial
    · simp only [h, if_false, Bool.false_eq_true]
      have hstep : waitStep (waitStateAt obs i) (obs i) = waitStateAt obs (i + 1) := rfl
      rw [hstep, ih (i + 1)]
      constructor
      · rintro ⟨j, hj, hr⟩
        refine ⟨j + 1, Nat.succ_lt_succ hj, ?_⟩
        have : i + 1 + j = i + (j + 1) := by omega
        rwa [this] at hr
      · rintro ⟨j, hj, hr⟩
        cases j with
        | zero =>
          exfalso
          apply h
          simpa [readyAt] using hr
        | succ j =>
          refine ⟨j, Nat.lt_of_succ_lt_succ hj, ?_⟩
          have : i + 1 + j = i + (j + 1) := by omega
          rwa [this]

/-- C1 (amended): the stability wait returns true iff, before the poll budget
(the discrete form of the timeout) runs out, some poll observes a size equal
to the recorded `last_size`, bringing the stable streak to `stable_check_count`
(i.e. the same size has been observed on `stable_check_count + 1` polls, with
stat errors resetting the streak and missing-file polls leaving it unchanged),
and the read-write open probe succeeds at that very poll; if the budget runs
out with no such poll it returns false. -/
theorem c1_wait_ready_iff (obs : Nat → Obs) (unl : Nat → Bool) (fuel : Nat) :
    wait_for_file_ready obs unl fuel = true ↔
      ∃ i, i < fuel ∧ readyAt obs unl i = true := by
  have h := waitLoop_trajectory obs unl fuel 0
  simp only [Nat.zero_add] at h
  exact h

/-- C1 counterexample: with every poll observing size 5 and the open probe
always succeeding, the size is observed identical across 3 consecutive polls
within a 3-poll budget, and the probe succeeds immediately afterwards, yet
`_wait_for_file_ready` returns false — the code needs the streak counter to
reach 3, which takes a fourth observation of the same size. -/
theorem c1_counterexample : ¬ claimC1Statement c1obs cxUnl 3 := by
  intro h
  have hrhs : ∃ i, i + 2 < 3 ∧ (∃ n, c1obs i = Obs.size n ∧ c1obs (i + 1) = Obs.size n ∧
      c1obs (i + 2) = Obs.size n) ∧ cxUnl (i + 2) = true :=
    ⟨0, by decide, ⟨5, rfl, rfl, rfl⟩, rfl⟩
  have hlhs : wait_for_file_ready c1obs cxUnl 3 = true := h.mpr hrhs
  have : wait_for_file_ready c1obs cxUnl 3 = false := by decide
  rw [this] at hlhs
  exact Bool.false_ne_true hlhs

/-- C2 (amended): during the stability polling loop a stat failure (`OSError`)
resets the stable-streak counter to zero while keeping the recorded size,
whereas a temporarily missing file leaves the loop state (streak included)
unchanged; in neither case does the loop return early — it continues polling
until the overall budget elapses. -/
theorem c2_io_error_behavior :
    (∀ s : WaitState, waitStep s Obs.ioError = ⟨s.lastSize, 0⟩) ∧
    (∀ s : WaitState, waitStep s Obs.missing = s) ∧
    (∀ (obs : Nat → Obs) (unl : Nat → Bool) (fuel i : Nat) (s : WaitState),
      obs i = Obs.missing ∨ obs i = Obs.ioError →
        waitLoop obs unl (fuel + 1) i s = waitLoop obs unl fuel (i + 1) (waitStep s (obs i))) := by
  refine ⟨fun s => rfl, fun s => rfl, ?_⟩
  intro obs unl fuel i s h
  rw [waitLoop]
  rcases h with h | h <;> rw [h] <;> simp [readyNow]

/-- Witness for `c2_io_error_behavior`: applying it to a concrete state and a
trace whose poll 3 sees the file as missing. -/
theorem c2_io_error_behavior_witness :
    (c2obs 3 = Obs.missing ∨ c2obs 3 = Obs.ioError) ∧
      waitLoop c2obs cxUnl (1 + 1) 3 ⟨5, 2⟩ = waitLoop c2obs cxUnl 1 (3 + 1) (waitStep ⟨5, 2⟩ (c2obs 3)) := by
  refine ⟨Or.inl (by decide), ?_⟩
  exact c2_io_error_behavior.2.2 c2obs cxUnl 1 3 ⟨5, 2⟩ (Or.inl (by decide))

/-- C2 counterexample: a missing-file poll does not reset the stable streak —
from streak 2 it stays at 2 — and on the trace `5, 5, 5, missing, 5` the real
loop returns true within 5 polls while the loop as the claim describes it
(missing resets the streak) returns false there. -/
theorem c2_counterexample :
    (waitStep ⟨5, 2⟩ Obs.missing).stableCount = 2 ∧
    ¬ (waitStep ⟨5, 2⟩ Obs.missing).stableCount = 0 ∧
    wait_for_file_ready c2obs cxUnl 5 = true ∧
    wait_for_file_ready_as_specified c2obs cxUnl 5 = false := by
  refine ⟨rfl, by decide, by decide, by decide⟩

end StabilityTheorems

/-! ## Event handler — `FileSyncHandler._handle_file_event`
    (src/file_monitor.py lines 56-96).

The handler's environment records what the filesystem answers at this
notification: whether the event path resolves to the mapping's source file
(line 67), whether the file still exists (line 71), the `stat().st_mtime`
result (`none` models the `OSError` caught at line 82), and what
`_wait_for_file_ready` would return (line 88).  The handler's only state is
`self.last_copy_time`, a dict from event-path string to the last recorded
modification time (line 43), modelled as an association list. -/

/-- The per-mapping configuration consumed by `_handle_file_event`. -/
structure HandlerCfg where
  wait_for_complete : Bool
deriving DecidableEq, Repr

/-- What the filesystem answers during one notification. -/
structure EventEnv where
  sameResolved : Bool
  fileExists : Bool
  statMtime : Option ℚ
  waitReady : Bool
deriving DecidableEq, Repr

/-- `self.last_copy_time`: path string → last recorded modification time. -/
abbrev LastCopyTimes := List (String × ℚ)

/-- Dict membership test / read, `file_path in self.last_copy_time` (line 77). -/
def lookupTime : LastCopyTimes → String → Option ℚ
  | [], _ => none
  | (q, t) :: rest, p => if q = p then some t else lookupTime rest p

/-- Dict assignment `self.last_copy_time[file_path] = mtime` (line 81). -/
def setTime : LastCopyTimes → String → ℚ → LastCopyTimes
  | [], p, t => [(p, t)]
  | (q, u) :: rest, p, t => if q = p then (q, t) :: rest else (q, u) :: setTime rest p t

/-- Lines 86-93: after the debounce, either wait for the file to become ready
(a false result skips the copy with a warning, line 89-90) or copy at once.
The boolean is whether `_copy_file` is invoked. -/
def handleAfterDebounce (cfg : HandlerCfg) (env : EventEnv) (st : LastCopyTimes) :
    LastCopyTimes × Bool :=
  if cfg.wait_for_complete && !env.waitReady then (st, false) else (st, true)

/-- `_handle_file_event` (lines 56-96): filter to the resolved source path,
drop events for vanished files, debounce on `mtime - last < 1.0` (line 79),
record the new timestamp, then wait and copy.  Returns the new
`last_copy_time` state and whether `_copy_file` was invoked. -/
def handle_file_event (cfg : HandlerCfg) (path : String) (env : EventEnv)
    (st : LastCopyTimes) : LastCopyTimes × Bool :=
  if env.sameResolved = false then (st, false)
  else if env.fileExists = false then (st, false)
  else
    match env.statMtime with
    | none => (st, false)
    | some mtime =>
      match lookupTime st path with
      | some t =>
        if mtime - t < 1 then (st, false)
        else handleAfterDebounce cfg env (setTime st path mtime)
      | none => handleAfterDebounce cfg env (setTime st path mtime)

/-- Feeding a sequence of notifications through the handler, counting the
copies triggered. -/
def runEvents (cfg : HandlerCfg) (path : String) : LastCopyTimes → List EventEnv → LastCopyTimes × Nat
  | st, [] => (st, 0)
  | st, e :: rest =>
    let r := handle_file_event cfg path e st
    let rr := runEvents cfg path r.1 rest
    (rr.1, (if r.2 then 1 else 0) + rr.2)

/-- Configuration used in the C3 counterexample and C9 witness. -/
def c3cfg : HandlerCfg := ⟨true⟩

/-- Event used in the C3 counterexample: a matching, existing file whose
current modification time 2 lies more than 1 second BELOW the recorded 5. -/
def c3env : EventEnv := ⟨true, true, some 2, true⟩

section HandlerTheorems

/-- After `setTime`, the recorded time for the written path is the new one. -/
theorem lookupTime_setTime_self (st : LastCopyTimes) (p : String) (t : ℚ) :
    lookupTime (setTime st p t) p = some t := by
  induction st with
  | nil => simp [setTime, lookupTime]
  | cons q rest ih =>
    obtain ⟨s, u⟩ := q
    by_cases h : s = p
    · simp [setTime, lookupTime, h]
    · simp [setTime, lookupTime, h, ih]

/-- `handleAfterDebounce` never changes the recorded-times state. -/
theorem handleAfterDebounce_fst (cfg : HandlerCfg) (env : EventEnv) (st : LastCopyTimes) :
    (handleAfterDebounce cfg env st).1 = st := by
  by_cases hw : cfg.wait_for_complete && !env.waitReady <;> simp [handleAfterDebounce, hw]

/-- The handler on a matching, existing, stat-able event whose timestamp is
debounced away: state unchanged, no copy. -/
theorem handle_skip (cfg : HandlerCfg) (path : String) (env : EventEnv)
    (st : LastCopyTimes) (mtime t : ℚ)
    (hs : env.sameResolved = true) (he : env.fileExists = true)
    (hm : env.statMtime = some mtime) (hl : lookupTime st path = some t)
    (hlt : mtime - t < 1) :
    handle_file_event cfg path env st = (st, false) := by
  simp [handle_file_event, hs, he, hm, hl, hlt]

/-- The handler on a matching, existing, stat-able event that survives the
debounce: the new timestamp is recorded. -/
theorem handle_record (cfg : HandlerCfg) (path : String) (env : EventEnv)
    (st : LastCopyTimes) (mtime : ℚ)
    (hs : env.sameResolved = true) (he : env.fileExists = true)
    (hm : env.statMtime = some mtime)
    (hl : lookupTime st path = none ∨ ∃ t, lookupTime st path = some t ∧ ¬ mtime - t < 1) :
    handle_file_event cfg path env st =
      handleAfterDebounce cfg env (setTime st path mtime) := by
  rcases hl with hl | ⟨t, hl, hlt⟩
  · simp [handle_file_event, hs, he, hm, hl]
  · simp [handle_file_event, hs, he, hm, hl, hlt]

/-- Once some timestamp `t0` is recorded for the path, any further matching
events whose timestamps are all less than `t0 + 1` are debounced away: state
unchanged, zero copies. -/
theorem runEvents_all_skipped (cfg : HandlerCfg) (path : String) :
    ∀ (evs : List EventEnv) (st : LastCopyTimes) (t0 : ℚ),
      lookupTime st path = some t0 →
      (∀ e ∈ evs, e.sameResolved = true ∧ e.fileExists = true ∧
        ∃ m, e.statMtime = some m ∧ m - t0 < 1) →
      runEvents cfg path st evs = (st, 0) := by
  intro evs
  induction evs with
  | nil => intro st t0 _ _; rfl
  | cons e rest ih =>
    intro st t0 hl hall
    obtain ⟨hs, he, m, hm, hlt⟩ := hall e (List.mem_cons_self e rest)
    have h1 : handle_file_event cfg path e st = (st, false) :=
      handle_skip cfg path e st m t0 hs he hm hl hlt
    have h2 : runEvents cfg path st rest = (st, 0) :=
      ih st t0 hl (fun e' he' => hall e' (List.mem_cons_of_mem e he'))
    simp [runEvents, h1, h2]

/-- C3 (amended): on a notification for the matching path the handler reads
the file's modification timestamp and discards the event whenever the new
timestamp minus the last-recorded one is less than 1 second (a SIGNED
comparison: timestamps that went backwards are also discarded); otherwise it
records the new timestamp and proceeds.  Consequently, for any sequence of
matching notifications whose modification timestamps all lie within 1 second
of each other, at most one copy is triggered. -/
theorem c3_debounce_behavior :
    (∀ (cfg : HandlerCfg) (path : String) (env : EventEnv) (st : LastCopyTimes) (mtime t : ℚ),
      env.sameResolved = true → env.fileExists = true → env.statMtime = some mtime →
      lookupTime st path = some t →
        (mtime - t < 1 → handle_file_event cfg path env st = (st, false)) ∧
        (¬ mtime - t < 1 → (handle_file_event cfg path env st).1 = setTime st path mtime)) ∧
    (∀ (cfg : HandlerCfg) (path : String) (evs : List EventEnv) (st : LastCopyTimes),
      (∀ e ∈ evs, e.sameResolved = true ∧ e.fileExists = true ∧ e.statMtime.isSome = true) →
      (∀ a ∈ evs.filterMap EventEnv.statMtime, ∀ b ∈ evs.filterMap EventEnv.statMtime, |a - b| < 1) →
      (runEvents cfg path st evs).2 ≤ 1) := by
  constructor
  · intro cfg path env st mtime t hs he hm hl
    refine ⟨fun hlt => handle_skip cfg path env st mtime t hs he hm hl hlt, fun hge => ?_⟩
    rw [handle_record cfg path env st mtime hs he hm (Or.inr ⟨t, hl, hge⟩)]
    by_cases hw : cfg.wait_for_complete && !env.waitReady
    · simp [handleAfterDebounce, hw]
    · simp [handleAfterDebounce, hw]
  · intro cfg path evs
    induction evs with
    | nil => intro st _ _; simp [runEvents]
    | cons e rest ih =>
      intro st hvalid hclose
      obtain ⟨hs, he, hsome⟩ := hvalid e (List.mem_cons_self e rest)
      obtain ⟨m, hm⟩ := Option.isSome_iff_exists.mp hsome
      have hmem_m : m ∈ (e :: rest).filterMap EventEnv.statMtime :=
        List.mem_filterMap.mpr ⟨e, List.mem_cons_self e rest, hm⟩
      -- after the head records `m`, every later event in the window is skipped
      have hrest_skip : ∀ st', lookupTime st' path = some m →
          runEvents cfg path st' rest = (st', 0) := by
        intro st' hl'
        refine runEvents_all_skipped cfg path rest st' m hl' ?_
        intro e' he'
        obtain ⟨hs', hex', hsome'⟩ := hvalid e' (List.mem_cons_of_mem e he')
        obtain ⟨m', hm'⟩ := Option.isSome_iff_exists.mp hsome'
        refine ⟨hs', hex', m', hm', ?_⟩
        have hmem' : m' ∈ (e :: rest).filterMap EventEnv.statMtime :=
          List.mem_filterMap.mpr ⟨e', List.mem_cons_of_mem e he', hm'⟩
        have habs : |m' - m| < 1 := hclose m' hmem' m hmem_m
        calc m' - m ≤ |m' - m| := le_abs_self _
          _ < 1 := habs
      -- the two cases in which the head records `m` share this argument
      have hrecord : handle_file_event cfg path e st =
            handleAfterDebounce cfg e (setTime st path m) →
          (runEvents cfg path st (e :: rest)).2 ≤ 1 := by
        intro h1
        have hz : runEvents cfg path (setTime st path m) rest = (setTime st path m, 0) :=
          hrest_skip _ (lookupTime_setTime_self st path m)
        simp only [runEvents, h1, handleAfterDebounce_fst, hz]
        by_cases hb : (handleAfterDebounce cfg e (setTime st path m)).2 <;> simp [hb]
      cases hl : lookupTime st path with
      | none => exact hrecord (handle_record cfg path e st m hs he hm (Or.inl hl))
      | some t =>
        by_cases hlt : m - t < 1
        · have h1 : handle_file_event cfg path e st = (st, false) :=
            handle_skip cfg path e st m t hs he hm hl hlt
          have htail : (runEvents cfg path st rest).2 ≤ 1 := by
            refine ih st (fun e' he' => hvalid e' (List.mem_cons_of_mem e he')) ?_
            intro a ha b hb
            refine hclose a ?_ b ?_
            · rcases List.mem_filterMap.mp ha with ⟨e', he', hm'⟩
              exact List.mem_filterMap.mpr ⟨e', List.mem_cons_of_mem e he', hm'⟩
            · rcases List.mem_filterMap.mp hb with ⟨e', he', hm'⟩
              exact List.mem_filterMap.mpr ⟨e', List.mem_cons_of_mem e he', hm'⟩
          simp only [runEvents, h1]
          simpa using htail
        · exact hrecord (handle_record cfg path e st m hs he hm (Or.inr ⟨t, hl, hlt⟩))

/-- Witness for `c3_debounce_behavior`: a two-notification burst (timestamps
`0` and `1/2`, within one second of each other) triggers at most one copy, and
a debounced event leaves the state untouched. -/
theorem c3_debounce_behavior_witness :
    (runEvents c3cfg "p" [] [⟨true, true, some 0, true⟩, ⟨true, true, some (1/2), true⟩]).2 ≤ 1 ∧
    handle_file_event c3cfg "p" ⟨true, true, some (1/2), true⟩ [("p", 0)] = ([("p", 0)], false) := by
  constructor
  · refine c3_debounce_behavior.2 c3cfg "p" _ [] (by decide) ?_
    intro a ha b hb
    simp only [List.filterMap] at ha hb
    have ha' : a = 0 ∨ a = 1/2 := by
      simpa using ha
    have hb' : b = 0 ∨ b = 1/2 := by
      simpa using hb
    rcases ha' with ha' | ha' <;> rcases hb' with hb' | hb' <;> rw [ha', hb'] <;>
      norm_num [abs_lt]
  · exact (c3_debounce_behavior.1 c3cfg "p" ⟨true, true, some (1/2), true⟩ [("p", 0)] (1/2) 0
      rfl rfl rfl rfl).1 (by norm_num)

/-- C3 counterexample: with timestamp 5 recorded for the path, a notification
whose modification time is 2 differs from the record by 3 seconds in absolute
value — the claim says the handler should record it and proceed — yet the code
compares the SIGNED delta (2 - 5 < 1) and discards the event, leaving the
state unchanged and triggering no copy. -/
theorem c3_counterexample :
    ¬ |(2 : ℚ) - 5| < 1 ∧
    handle_file_event c3cfg "p" c3env [("p", 5)] = ([("p", 5)], false) := by
  constructor
  · norm_num
  · exact handle_skip c3cfg "p" c3env [("p", 5)] 2 5 rfl rfl rfl (by norm_num [lookupTime])
      (by norm_num)

/-- C9: a notification whose resolved path differs from the mapping's resolved
source-file path, or whose file no longer exists at notification time, causes
no copy and leaves the handler's `last_copy_time` state unchanged. -/
theorem c9_non_matching_ignored (cfg : HandlerCfg) (path : String) (env : EventEnv)
    (st : LastCopyTimes) (h : env.sameResolved = false ∨ env.fileExists = false) :
    handle_file_event cfg path env st = (st, false) := by
  rcases h with h | h
  · simp [handle_file_event, h]
  · cases hs : env.sameResolved
    · simp [handle_file_event, hs]
    · simp [handle_file_event, hs, h]

/-- Witness for `c9_non_matching_ignored`: a non-matching notification with a
recorded timestamp present is dropped without touching the state. -/
theorem c9_non_matching_ignored_witness :
    handle_file_event c3cfg "p" ⟨false, true, some 7, true⟩ [("q", 3)] = ([("q", 3)], false) :=
  c9_non_matching_ignored c3cfg "p" ⟨false, true, some 7, true⟩ [("q", 3)] (Or.inl rfl)

end HandlerTheorems

/-! ## Copy executor — `FileSyncHandler._copy_file`
    (src/file_monitor.py lines 187-236) and `_open_directory` (238-248).

Python's exception hierarchy is flattened to the three classes the code
distinguishes: `PermissionError` (caught at line 223), any other `OSError`
(which, like every remaining exception, lands in the `except Exception` at
line 229), and any other exception.  Each attempt's filesystem calls — the
`unlink` of an existing target (line 209) and `shutil.copy2` (line 212) —
may raise per the environment; `mkdir` (line 196) and `os.startfile`
(line 246) likewise. -/

/-- The exception classes the copy code distinguishes. -/
inductive PyErr where
  | permError : PyErr
  | osError : PyErr
  | otherError : PyErr
deriving DecidableEq, Repr

/-- Filesystem operations one copy attempt performs. -/
inductive FileOp where
  | unlinkTarget : FileOp
  | copyBytes : FileOp
deriving DecidableEq, Repr

/-- What the filesystem does during one copy attempt: whether a file already
exists at the target path (line 208), and whether `unlink` / `copy2` raise. -/
structure AttemptEnv where
  targetExists : Bool
  unlinkResult : Option PyErr
  copyResult : Option PyErr
deriving DecidableEq, Repr

/-- One attempt body, lines 207-212: if the target exists, delete it first
(an exception there aborts the attempt before the copy); then copy bytes and
metadata.  Returns the attempt's outcome and the operations performed. -/
def runAttempt (e : AttemptEnv) : Except PyErr Unit × List FileOp :=
  if e.targetExists then
    match e.unlinkResult with
    | some err => (Except.error err, [FileOp.unlinkTarget])
    | none =>
      match e.copyResult with
      | some err => (Except.error err, [FileOp.unlinkTarget, FileOp.copyBytes])
      | none => (Except.ok (), [FileOp.unlinkTarget, FileOp.copyBytes])
  else
    match e.copyResult with
    | some err => (Except.error err, [FileOp.copyBytes])
    | none => (Except.ok (), [FileOp.copyBytes])

/-- `_open_directory` (lines 238-248): `os.startfile` may raise, but the
exception is caught and logged as a warning — the call always returns. -/
def open_directory (res : Option PyErr) : Except PyErr Unit :=
  match (match res with
         | some e => (Except.error e : Except PyErr Unit)
         | none => Except.ok ()) with
  | Except.ok _ => Except.ok ()
  | Except.error _ => Except.ok ()

/-- `max_retries = 5` (line 202). -/
def max_retries : Nat := 5

/-- The retry loop, lines 205-233.  `r` is the number of attempts the
`range(max_retries)` budget still allows, `a` the current attempt index, `d`
the current `retry_delay`, `ds` the sleeps performed so far.  A
`PermissionError` on a non-final attempt sleeps `d` and doubles it
(lines 223-226); any other exception on a non-final attempt sleeps `d`
without doubling it (lines 229-231); on the final attempt the exception is
re-raised (lines 228, 233).  A successful attempt runs the directory-open
side effect when requested (lines 218-219) and returns. -/
def copyLoop (env : Nat → AttemptEnv) (openDir : Bool) (openRes : Option PyErr) :
    Nat → Nat → ℚ → List ℚ → Except PyErr Unit × List ℚ
  | 0, _, _, ds => (Except.ok (), ds)
  | r + 1, a, d, ds =>
    match (runAttempt (env a)).1 with
    | Except.ok _ =>
      match (if openDir then open_directory openRes else Except.ok ()) with
      | Except.ok _ => (Except.ok (), ds)
      | Except.error e => (Except.error e, ds)
    | Except.error PyErr.permError =>
      if r = 0 then (Except.error PyErr.permError, ds)
      else copyLoop env openDir openRes r (a + 1) (d * 2) (ds ++ [d])
    | Except.error e =>
      if r = 0 then (Except.error e, ds)
      else copyLoop env openDir openRes r (a + 1) d (ds ++ [d])

/-- The filesystem's behaviour across one `_copy_file` call. -/
structure CopyEnv where
  mkdirResult : Option PyErr
  attempts : Nat → AttemptEnv
  openDir : Bool
  openResult : Option PyErr

/-- The body of `_copy_file`'s outer `try` (lines 195-233): `mkdir` may raise
(line 196), then the retry loop runs with `retry_delay = 0.5` (line 203). -/
def copy_file_inner (cenv : CopyEnv) : Except PyErr Unit × List ℚ :=
  match cenv.mkdirResult with
  | some e => (Except.error e, [])
  | none => copyLoop cenv.attempts cenv.openDir cenv.openResult max_retries 0 (1/2) []

/-- `_copy_file` (lines 187-236): whatever the inner body raises is caught by
the outer `except Exception` (line 235), logged, and the method returns
normally. -/
def copy_file (cenv : CopyEnv) : Except PyErr Unit × List ℚ :=
  match copy_file_inner cenv with
  | (Except.ok _, ds) => (Except.ok (), ds)
  | (Except.error _, ds) => (Except.ok (), ds)

/-- The outer `try/except` of `_handle_file_event` (lines 63-96): any
exception escaping the event-processing body is caught and logged
(lines 95-96) and the handler returns normally, keeping the watcher alive. -/
def handler_outer (inner : Except PyErr Unit) : Except PyErr Unit :=
  match inner with
  | Except.ok _ => Except.ok ()
  | Except.error _ => Except.ok ()

/-- Whether attempt `i` of environment `env` raises `PermissionError`. -/
def errIsPerm (env : Nat → AttemptEnv) (i : Nat) : Bool :=
  match (runAttempt (env i)).1 with
  | Except.error PyErr.permError => true
  | _ => false

/-- Whether attempt `i` of environment `env` raises at all. -/
def attemptFails (env : Nat → AttemptEnv) (i : Nat) : Bool :=
  match (runAttempt (env i)).1 with
  | Except.ok _ => false
  | Except.error _ => true

/-- Number of `PermissionError` attempts among attempts `a, a+1, …, a+j-1`. -/
def permsIn (env : Nat → AttemptEnv) : Nat → Nat → Nat
  | _, 0 => 0
  | a, j + 1 => (if errIsPerm env a then 1 else 0) + permsIn env (a + 1) j

/-- Number of backoff sleeps the loop performs from attempt `a` with `r`
attempts of budget left. -/
def retriesFrom (env : Nat → AttemptEnv) : Nat → Nat → Nat
  | 0, _ => 0
  | r + 1, a =>
    if attemptFails env a then (if r = 0 then 0 else 1 + retriesFrom env r (a + 1)) else 0

section CopyTheorems

/-- Peeling the first sleep off the closed form of the delays: the remaining
sleeps start from the delay `d`, doubled when attempt `a` was a
`PermissionError`. -/
theorem delays_cons (env : Nat → AttemptEnv) (a k : Nat) (d : ℚ) :
    (List.range (k + 1)).map (fun j => d * 2 ^ permsIn env a j)
      = d :: (List.range k).map
          (fun j => (d * (if errIsPerm env a then 2 else 1)) * 2 ^ permsIn env (a + 1) j) := by
  rw [List.range_succ_eq_map]
  simp only [List.map_cons, List.map_map]
  congr 1
  · simp [permsIn]
  · apply List.map_congr_left
    intro j _
    simp only [Function.comp_apply, Nat.succ_eq_add_one, permsIn]
    by_cases hp : errIsPerm env a
    · simp only [hp, if_true, pow_add, pow_one]
      ring
    · simp [hp]

/-- The inductive step of `copyLoop_sleeps` for a failed, non-final attempt. -/
theorem copyLoop_sleeps_step (env : Nat → AttemptEnv) (openDir : Bool) (openRes : Option PyErr)
    (r a : Nat) (d : ℚ) (ds : List ℚ)
    (hf : attemptFails env a = true) (h0 : r ≠ 0)
    (ih : ∀ (a : Nat) (d : ℚ) (ds : List ℚ),
      (copyLoop env openDir openRes r a d ds).2 =
        ds ++ (List.range (retriesFrom env r a)).map (fun j => d * 2 ^ permsIn env a j)) :
    (copyLoop env openDir openRes r (a + 1) (d * (if errIsPerm env a then 2 else 1))
        (ds ++ [d])).2
      = ds ++ (List.range (retriesFrom env (r + 1) a)).map
          (fun j => d * 2 ^ permsIn env a j) := by
  rw [ih]
  have hretr : retriesFrom env (r + 1) a = retriesFrom env r (a + 1) + 1 := by
    simp [retriesFrom, hf, h0, Nat.add_comm]
  rw [hretr, delays_cons env a _ d, List.append_assoc]
  rfl

/-- Closed form of the sleeps the retry loop performs: starting from delay
`d` at attempt `a`, the `j`-th sleep is `d` doubled once per
`PermissionError` among the attempts already failed. -/
theorem copyLoop_sleeps (env : Nat → AttemptEnv) (openDir : Bool) (openRes : Option PyErr) :
    ∀ (r a : Nat) (d : ℚ) (ds : List ℚ),
      (copyLoop env openDir openRes r a d ds).2 =
        ds ++ (List.range (retriesFrom env r a)).map (fun j => d * 2 ^ permsIn env a j) := by
  intro r
  induction r with
  | zero => intro a d ds; simp [copyLoop, retriesFrom]
  | succ r ih =>
    intro a d ds
    rw [copyLoop]
    cases hr : (runAttempt (env a)).1 with
    | ok u =>
      have hf : attemptFails env a = false := by simp [attemptFails, hr]
      cases hop : (if openDir then open_directory openRes else Except.ok ()) with
      | ok _ => simp [retriesFrom, hf]
      | error e => simp [retriesFrom, hf]
    | error e =>
      have hf : attemptFails env a = true := by simp [attemptFails, hr]
      cases e with
      | permError =>
        have hperm : errIsPerm env a = true := by simp [errIsPerm, hr]
        by_cases h0 : r = 0
        · subst h0; simp [retriesFrom, hf]
        · simp only [h0, if_false]
          have := copyLoop_sleeps_step env openDir openRes r a d ds hf h0 ih
          rw [hperm] at this
          simpa using this
      | osError =>
        have hperm : errIsPerm env a = false := by simp [errIsPerm, hr]
        by_cases h0 : r = 0
        · subst h0; simp [retriesFrom, hf]
        · simp only [h0, if_false]
          have := copyLoop_sleeps_step env openDir openRes r a d ds hf h0 ih
          rw [hperm] at this
          simpa using this
      | otherError =>
        have hperm : errIsPerm env a = false := by simp [errIsPerm, hr]
        by_cases h0 : r = 0
        · subst h0; simp [retriesFrom, hf]
        · simp only [h0, if_false]
          have := copyLoop_sleeps_step env openDir openRes r a d ds hf h0 ih
          rw [hperm] at this
          simpa using this

/-- The loop sleeps strictly fewer times than its attempt budget. -/
theorem retriesFrom_le (env : Nat → AttemptEnv) : ∀ r a, retriesFrom env r a ≤ r - 1 := by
  intro r
  induction r with
  | zero => intro a; simp [retriesFrom]
  | succ r ih =>
    intro a
    rw [retriesFrom]
    by_cases hf : attemptFails env a = true
    · by_cases h0 : r = 0
      · simp [hf, h0]
      · have := ih (a + 1)
        simp only [hf, if_true, h0, if_false]
        omega
    · simp [hf]

/-- If every attempt in the budget fails, the loop ends by re-raising. -/
theorem copyLoop_exhaust (env : Nat → AttemptEnv) (openDir : Bool) (openRes : Option PyErr) :
    ∀ (r a : Nat) (d : ℚ) (ds : List ℚ),
      (∀ j, j ≤ r → attemptFails env (a + j) = true) →
      ∃ e, (copyLoop env openDir openRes (r + 1) a d ds).1 = Except.error e := by
  intro r
  induction r with
  | zero =>
    intro a d ds hall
    have hf := hall 0 (Nat.le_refl 0)
    rw [Nat.add_zero] at hf
    rw [copyLoop]
    cases hr : (runAttempt (env a)).1 with
    | ok u => rw [attemptFails, hr] at hf; exact absurd hf (by simp)
    | error e =>
      cases e <;> exact ⟨_, rfl⟩
  | succ r ih =>
    intro a d ds hall
    have hf := hall 0 (Nat.zero_le _)
    rw [Nat.add_zero] at hf
    rw [copyLoop]
    cases hr : (runAttempt (env a)).1 with
    | ok u => rw [attemptFails, hr] at hf; exact absurd hf (by simp)
    | error e =>
      have hall' : ∀ j, j ≤ r → attemptFails env (a + 1 + j) = true := by
        intro j hj
        have := hall (j + 1) (Nat.succ_le_succ hj)
        rwa [show a + (j + 1) = a + 1 + j by omega] at this
      cases e with
      | permError => simpa using ih (a + 1) (d * 2) (ds ++ [d]) hall'
      | osError => simpa using ih (a + 1) d (ds ++ [d]) hall'
      | otherError => simpa using ih (a + 1) d (ds ++ [d]) hall'

/-- `_copy_file`'s outer catch keeps the sleeps performed by the loop. -/
theorem copy_file_sleeps (cenv : CopyEnv) : (copy_file cenv).2 = (copy_file_inner cenv).2 := by
  rw [copy_file]
  rcases h : copy_file_inner cenv with ⟨r, ds⟩
  cases r <;> rfl

/-- C4 (amended): the copy operation makes at most 5 attempts (hence at most
4 backoff sleeps); each attempt first deletes an existing target file and
then copies bytes and metadata; the delay starts at 0.5 s and is doubled
after each permission/lock error, while any other unexpected error leaves the
delay at its current value — so the `j`-th sleep is `0.5 * 2 ^ p` where `p`
counts the permission errors among the attempts already failed, which is the
fixed 0.5 s only while no permission error has occurred; when the attempts
are exhausted the copy reports failure. -/
theorem c4_copy_retry_behavior (cenv : CopyEnv) :
    (copy_file cenv).2.length ≤ max_retries - 1 ∧
    (∀ j : Nat, j < (copy_file cenv).2.length →
      (copy_file cenv).2.get? j = some ((1/2 : ℚ) * 2 ^ permsIn cenv.attempts 0 j)) ∧
    (∀ e' : AttemptEnv, (runAttempt e').1 = Except.ok () →
      (runAttempt e').2 = (if e'.targetExists then [FileOp.unlinkTarget] else [])
        ++ [FileOp.copyBytes]) ∧
    (cenv.mkdirResult = none →
      (∀ i, i < max_retries → attemptFails cenv.attempts i = true) →
      ∃ e, (copy_file_inner cenv).1 = Except.error e) := by
  have hsleeps : (copy_file cenv).2 =
      (List.range (retriesFrom cenv.attempts max_retries 0)).map
        (fun j => (1/2 : ℚ) * 2 ^ permsIn cenv.attempts 0 j) ∨
      (copy_file cenv).2 = [] := by
    rw [copy_file_sleeps, copy_file_inner]
    cases hm : cenv.mkdirResult with
    | some e => right; rfl
    | none =>
      left
      have := copyLoop_sleeps cenv.attempts cenv.openDir cenv.openResult max_retries 0 (1/2) []
      simpa using this
  refine ⟨?_, ?_, ?_, ?_⟩
  · rcases hsleeps with h | h
    · rw [h, List.length_map, List.length_range]
      exact retriesFrom_le cenv.attempts max_retries 0
    · simp [h]
  · intro j hj
    rcases hsleeps with h | h
    · rw [h] at hj ⊢
      rw [List.length_map, List.length_range] at hj
      rw [List.get?_map, List.get?_range hj]
      rfl
    · rw [h] at hj
      exact absurd hj (by simp)
  · intro e' hok
    cases ht : e'.targetExists <;> cases hu : e'.unlinkResult <;> cases hc : e'.copyResult <;>
      simp_all [runAttempt]
  · intro hm hall
    rw [copy_file_inner, hm]
    have h4 : max_retries = 4 + 1 := rfl
    rw [h4]
    refine copyLoop_exhaust cenv.attempts cenv.openDir cenv.openResult 4 0 (1/2) [] ?_
    intro j hj
    have := hall (0 + j) (by simpa [max_retries] using Nat.lt_succ_of_le hj)
    simpa using this

/-- Attempt outcomes for the C4 counterexample: a permission error, then an
unexpected (non-permission) error, then success. -/
def c4env : Nat → AttemptEnv := fun i =>
  if i = 0 then ⟨false, none, some PyErr.permError⟩
  else if i = 1 then ⟨false, none, some PyErr.otherError⟩
  else ⟨false, none, none⟩

/-- Copy environment for the C4 counterexample. -/
def c4cenv : CopyEnv := ⟨none, c4env, false, none⟩

/-- Attempt outcomes that always raise a permission error. -/
def c4failEnv : Nat → AttemptEnv := fun _ => ⟨false, none, some PyErr.permError⟩

/-- Copy environment in which every attempt raises a permission error. -/
def c4failCenv : CopyEnv := ⟨none, c4failEnv, false, none⟩

/-- C4 counterexample: attempt 0 raises a permission error and attempt 1
raises an unexpected (non-permission) error; the delay slept after that
unexpected error — the delay before attempt 2 — is 1 s, the exponential
value inherited from the earlier permission error, not the fixed 0.5 s the
claim requires after any other unexpected error. -/
theorem c4_counterexample :
    (runAttempt (c4env 1)).1 = Except.error PyErr.otherError ∧
    (copy_file c4cenv).2 = [1/2, 1] ∧
    ((1 : ℚ) ≠ 1/2) := by
  refine ⟨rfl, ?_, by norm_num⟩
  have h2 : (copy_file c4cenv).2 =
      (List.range (retriesFrom c4env 5 0)).map (fun j => (1/2 : ℚ) * 2 ^ permsIn c4env 0 j) := by
    rw [copy_file_sleeps]
    have hi : copy_file_inner c4cenv = copyLoop c4env false none max_retries 0 (1/2) [] := rfl
    rw [hi, copyLoop_sleeps]
    simp [max_retries]
  have hr : retriesFrom c4env 5 0 = 2 := by decide
  have hrange : List.range 2 = [0, 1] := rfl
  have hp0 : permsIn c4env 0 0 = 0 := by decide
  have hp1 : permsIn c4env 0 1 = 1 := by decide
  rw [h2, hr, hrange]
  simp only [List.map_cons, List.map_nil, hp0, hp1]
  norm_num

/-- Witness for `c4_copy_retry_behavior`: its conclusions instantiated on the
concrete environments, with every hypothesis discharged by evaluation. -/
theorem c4_copy_retry_behavior_witness :
    (copy_file c4cenv).2.get? 1 = some ((1/2 : ℚ) * 2 ^ permsIn c4cenv.attempts 0 1) ∧
    (runAttempt ⟨true, none, none⟩).2 = [FileOp.unlinkTarget, FileOp.copyBytes] ∧
    (∃ e, (copy_file_inner c4failCenv).1 = Except.error e) := by
  refine ⟨(c4_copy_retry_behavior c4cenv).2.1 1 (by decide), ?_, ?_⟩
  · have := (c4_copy_retry_behavior c4cenv).2.2.1 ⟨true, none, none⟩ rfl
    simpa using this
  · exact (c4_copy_retry_behavior c4failCenv).2.2.2 rfl (fun i _ => by
      simp [attemptFails, runAttempt, c4failCenv, c4failEnv])

/-- C5: no failure of the copy operation — a `mkdir` failure creating the
target directory, exhaustion of the copy attempts, or the directory-open side
effect failing — is ever raised to the caller: `_copy_file` always returns
normally (the failure is only logged), `_open_directory` swallows its own
exception, and the event handler's outer catch turns any remaining exception
into a normal return, so the watcher stays alive for the next event. -/
theorem c5_no_failure_raised :
    (∀ cenv : CopyEnv, (copy_file cenv).1 = Except.ok ()) ∧
    (∀ res : Option PyErr, open_directory res = Except.ok ()) ∧
    (∀ inner : Except PyErr Unit, handler_outer inner = Except.ok ()) := by
  refine ⟨?_, ?_, ?_⟩
  · intro cenv
    rw [copy_file]
    rcases h : copy_file_inner cenv with ⟨r, ds⟩
    cases r <;> rfl
  · intro res
    cases res <;> rfl
  · intro inner
    cases inner <;> rfl

end CopyTheorems

/-! ## Project-name derivation — `ConfigManager._extract_project_name`
    (src/config_manager.py lines 189-232).

A `pathlib` path is modelled by its optional anchor (the root / drive
element that `Path.parts` reports first for an absolute path) and the
remaining segments, the file or directory name being the last segment.
`Path.parts` is the anchor followed by the segments; `path.parent.name` is
the next-to-last segment, or the empty string when the parent is the anchor
itself (pathlib's `name` of a root path is empty). -/

/-- A `pathlib.Path`, as consumed by `_extract_project_name`. -/
structure PPath where
  anchor : Option String
  segments : List String
deriving DecidableEq, Repr

/-- `Path.parts`. -/
def PPath.parts (p : PPath) : List String := p.anchor.toList ++ p.segments

/-- `path.parent.name` (line 232). -/
def PPath.parentName (p : PPath) : String := (p.segments.dropLast.getLast?).getD ""

/-- `any(char.isdigit() for char in part) or len(part) > 10`
(lines 220 and 228). -/
def looksLikeProjectName (s : String) : Bool :=
  s.toList.any Char.isDigit || decide (s.length > 10)

/-- Lines 204-211: compare segment by segment from the root, stopping at the
first mismatch — the longest common prefix of the two `parts` tuples. -/
def commonParts : List String → List String → List String
  | a :: as, b :: bs => if a = b then a :: commonParts as bs else []
  | _, _ => []

/-- `for part in reversed(parts): if …: return part` (lines 218-221 and
227-229): the first qualifying segment, scanning deepest-first. -/
def firstQualifying (parts : List String) : Option String :=
  parts.reverse.find? looksLikeProjectName

/-- The literal fallback sentinel `"未知项目"` of line 232. -/
def unknownProject : String := "未知项目"

/-- `_extract_project_name` (lines 189-232). -/
def extract_project_name (source target : PPath) : String :=
  let common := commonParts source.parts target.parts
  if common.length > 0 then
    match firstQualifying common with
    | some part => part
    | none => common.getLastD ""
  else
    match firstQualifying source.parts with
    | some part => part
    | none => if source.parentName ≠ "" then source.parentName else unknownProject

/-- Modelled from the spec's words for claim C7: split both paths into
segments; take the longest common prefix from the root; scanning the common
segments deepest-first return the first one containing a digit or longer
than 10 characters, else the deepest common segment; with no common prefix
apply the same test to the source path's segments deepest-first; finally
fall back to the source file's immediate parent directory name, or the fixed
sentinel if that name is empty. -/
def extractProjectNameAsSpecified (source target : PPath) : String :=
  match (commonParts source.parts target.parts).reverse with
  | [] =>
    (source.parts.reverse.find? looksLikeProjectName).getD
      (if source.parentName = "" then unknownProject else source.parentName)
  | deepest :: rest =>
    ((deepest :: rest).find? looksLikeProjectName).getD deepest

section ProjectNameTheorems

/-- C7: the project-name derivation is a deterministic pure function of the
two paths and computes exactly what the spec's derivation rule states —
deepest-first digit/length heuristic over the common prefix, then over the
source segments, then the parent-directory-name / sentinel fallback. -/
theorem c7_extract_project_name (source target : PPath) :
    extract_project_name source target = extractProjectNameAsSpecified source target := by
  rw [extract_project_name, extractProjectNameAsSpecified]
  cases hc : commonParts source.parts target.parts with
  | nil =>
    simp only [List.reverse_nil, List.length_nil, gt_iff_lt, Nat.lt_irrefl, if_false]
    rw [firstQualifying]
    cases hf : source.parts.reverse.find? looksLikeProjectName with
    | some part => rfl
    | none =>
      simp only [Option.getD_none]
      by_cases hp : source.parentName = ""
      · simp [hp]
      · simp [hp]
  | cons c cs =>
    rcases hrev : (c :: cs).reverse with _ | ⟨d, rest⟩
    · exact absurd hrev (by simp)
    · have hlen : (c :: cs).length > 0 := by simp
      simp only [hlen, if_true]
      rw [firstQualifying, hrev]
      have hlast : (c :: cs).getLast?.getD "" = d := by
        rw [← List.head?_reverse, hrev]
        rfl
      cases hf : (d :: rest).find? looksLikeProjectName with
      | some part => rfl
      | none => simp [List.getLastD_eq_getLast?, hlast]

/-- C7 holds with no hypotheses; this instantiates it on concrete paths where
the heuristic picks the digit-bearing deepest common segment. -/
theorem c7_extract_project_name_example :
    extract_project_name ⟨some "/", ["work", "38 SCW", "data", "r.csv"]⟩
        ⟨some "/", ["work", "38 SCW", "out"]⟩ = "38 SCW" := by
  decide

end ProjectNameTheorems

/-! ## Project identification — `ConfigManager._identify_projects`
    (src/config_manager.py lines 234-277).

`identified_projects` is a Python dict from project name to
`{mapping_indices, enabled}`; insertion order is preserved, so it is
modelled as an association list with first-match lookup.  A mapping whose
processing raises inside the `try` (line 242: e.g. a missing
`source_file`/`target_dir` key) is modelled as `none`. -/

/-- The default bucket name `"未分类项目"` of line 268. -/
def unclassifiedProject : String := "未分类项目"

/-- One value of the `identified_projects` dict (lines 257-260). -/
structure ProjectInfo where
  mapping_indices : List Nat
  enabled : Bool
deriving DecidableEq, Repr

/-- The `identified_projects` / `self.projects` dict. -/
abbrev Projects := List (String × ProjectInfo)

/-- Dict lookup (first match). -/
def lookupKey : Projects → String → Option ProjectInfo
  | [], _ => none
  | q :: qs, nm => if q.1 = nm then some q.2 else lookupKey qs nm

/-- The previously saved `self.projects`: name → the saved entry's optional
`enabled` field (`self.projects[project_name].get('enabled', True)`,
line 253 — the field itself may be absent). -/
abbrev PrevProjects := List (String × Option Bool)

/-- Lookup in the previous project map. -/
def prevLookup : PrevProjects → String → Option (Option Bool)
  | [], _ => none
  | q :: qs, nm => if q.1 = nm then some q.2 else prevLookup qs nm

/-- Lines 252-255: the enabled flag for a newly created project — the saved
value when the name is present in the previous map, else `True`. -/
def prevEnabled (prev : PrevProjects) (name : String) : Bool :=
  match prevLookup prev name with
  | some (some b) => b
  | some none => true
  | none => true

/-- `identified_projects[name]['mapping_indices'].append(i)` (lines 263,
274): append to the first entry with that key. -/
def appendToBucket : Projects → String → Nat → Projects
  | [], _, _ => []
  | q :: qs, nm, i =>
    if q.1 = nm then (q.1, ⟨q.2.mapping_indices ++ [i], q.2.enabled⟩) :: qs
    else q :: appendToBucket qs nm i

/-- Lines 250-263 and 269-274: create the bucket if absent (with the given
enabled flag), then append the mapping index to it. -/
def addMapping (ps : Projects) (name : String) (enabledIfNew : Bool) (i : Nat) : Projects :=
  if (lookupKey ps name).isSome then appendToBucket ps name i
  else ps ++ [(name, ⟨[i], enabledIfNew⟩)]

/-- One iteration of the loop of `_identify_projects` (lines 241-274): a
readable mapping goes to its derived project name with the carried-over
enabled flag; a mapping whose processing raises goes to the default bucket,
created enabled if new (line 272). -/
def identifyStep (prev : PrevProjects) (ps : Projects) (i : Nat)
    (m : Option (PPath × PPath)) : Projects :=
  match m with
  | some (s, t) =>
    addMapping ps (extract_project_name s t)
      (prevEnabled prev (extract_project_name s t)) i
  | none => addMapping ps unclassifiedProject true i

/-- The `for i, mapping in enumerate(self.mappings)` loop, starting at
index `i`. -/
def identifyFrom (prev : PrevProjects) :
    Nat → Projects → List (Option (PPath × PPath)) → Projects
  | _, ps, [] => ps
  | i, ps, m :: rest => identifyFrom prev (i + 1) (identifyStep prev ps i m) rest

/-- `_identify_projects` (lines 234-277): rebuild the project dict from an
empty one, then install it as `self.projects`. -/
def identify_projects (prev : PrevProjects) (ms : List (Option (PPath × PPath))) : Projects :=
  identifyFrom prev 0 [] ms

/-- All mapping indices stored in the dict, across all buckets. -/
def allIndices (ps : Projects) : List Nat :=
  ps.foldr (fun q acc => q.2.mapping_indices ++ acc) []

/-- Occurrence count of `x` in a list of naturals. -/
def countNat (x : Nat) : List Nat → Nat
  | [] => 0
  | y :: l => (if y = x then 1 else 0) + countNat x l

section IdentifyLemmas

theorem countNat_append (x : Nat) (l₁ l₂ : List Nat) :
    countNat x (l₁ ++ l₂) = countNat x l₁ + countNat x l₂ := by
  induction l₁ with
  | nil => simp [countNat]
  | cons y l ih => simp [countNat, ih, Nat.add_assoc]

theorem allIndices_cons (q : String × ProjectInfo) (qs : Projects) :
    allIndices (q :: qs) = q.2.mapping_indices ++ allIndices qs := rfl

theorem allIndices_append (l₁ l₂ : Projects) :
    allIndices (l₁ ++ l₂) = allIndices l₁ ++ allIndices l₂ := by
  induction l₁ with
  | nil => rfl
  | cons q qs ih => simp [allIndices_cons, ih]

theorem count_appendToBucket (ps : Projects) (nm : String) (i x : Nat)
    (hsome : (lookupKey ps nm).isSome = true) :
    countNat x (allIndices (appendToBucket ps nm i)) =
      countNat x (allIndices ps) + (if i = x then 1 else 0) := by
  induction ps with
  | nil => simp [lookupKey] at hsome
  | cons q qs ih =>
    by_cases hq : q.1 = nm
    · rw [appendToBucket]
      simp only [hq, if_true]
      rw [allIndices_cons, allIndices_cons, countNat_append, countNat_append,
        countNat_append]
      have : countNat x [i] = if i = x then 1 else 0 := by simp [countNat]
      rw [this]
      ring
    · rw [appendToBucket]
      simp only [hq, if_false]
      rw [allIndices_cons, allIndices_cons, countNat_append, countNat_append]
      have hsome' : (lookupKey qs nm).isSome = true := by
        rw [lookupKey] at hsome
        simpa [hq] using hsome
      rw [ih hsome']
      ring

theorem count_addMapping (ps : Projects) (nm : String) (e : Bool) (i x : Nat) :
    countNat x (allIndices (addMapping ps nm e i)) =
      countNat x (allIndices ps) + (if i = x then 1 else 0) := by
  rw [addMapping]
  by_cases hsome : (lookupKey ps nm).isSome = true
  · simp only [hsome, if_true]
    exact count_appendToBucket ps nm i x hsome
  · simp only [hsome, Bool.false_eq_true, if_false]
    rw [allIndices_append, countNat_append]
    simp [allIndices, countNat]

theorem count_identifyStep (prev : PrevProjects) (ps : Projects) (i : Nat)
    (m : Option (PPath × PPath)) (x : Nat) :
    countNat x (allIndices (identifyStep prev ps i m)) =
      countNat x (allIndices ps) + (if i = x then 1 else 0) := by
  cases m with
  | none => exact count_addMapping ps unclassifiedProject true i x
  | some st =>
    obtain ⟨s, t⟩ := st
    exact count_addMapping ps (extract_project_name s t) _ i x

theorem identifyFrom_count (prev : PrevProjects) :
    ∀ (ms : List (Option (PPath × PPath))) (i : Nat) (ps : Projects),
      (∀ x, countNat x (allIndices ps) = if x < i then 1 else 0) →
      ∀ x, countNat x (allIndices (identifyFrom prev i ps ms)) =
        if x < i + ms.length then 1 else 0 := by
  intro ms
  induction ms with
  | nil =>
    intro i ps h x
    rw [identifyFrom]
    simpa using h x
  | cons m rest ih =>
    intro i ps h x
    rw [identifyFrom]
    have hstep : ∀ y, countNat y (allIndices (identifyStep prev ps i m)) =
        if y < i + 1 then 1 else 0 := by
      intro y
      rw [count_identifyStep, h y]
      by_cases hy : y < i
      · have : ¬ i = y := by omega
        simp [hy, this, show y < i + 1 by omega]
      · by_cases hyi : y = i
        · simp [hyi, show ¬ i < i by omega, show i < i + 1 by omega]
        · have : ¬ i = y := fun hh => hyi hh.symm
          simp [hy, this, show ¬ y < i + 1 by omega]
    have := ih (i + 1) (identifyStep prev ps i m) hstep x
    rw [this]
    have harith : i + 1 + rest.length = i + (rest.length + 1) := by omega
    rw [harith]
    rfl

theorem lookup_appendToBucket_ne (ps : Projects) (nm nm' : String) (i : Nat)
    (h : nm' ≠ nm) : lookupKey (appendToBucket ps nm i) nm' = lookupKey ps nm' := by
  induction ps with
  | nil => rfl
  | cons q qs ih =>
    by_cases hq : q.1 = nm
    · have hne : ¬ q.1 = nm' := by rw [hq]; exact fun hh => h hh.symm
      rw [appendToBucket, if_pos hq, lookupKey, lookupKey, if_neg hne, if_neg hne]
    · rw [appendToBucket, if_neg hq, lookupKey, lookupKey]
      by_cases hq' : q.1 = nm'
      · rw [if_pos hq', if_pos hq']
      · rw [if_neg hq', if_neg hq', ih]

theorem lookup_appendToBucket_eq (ps : Projects) (nm : String) (i : Nat) (info : ProjectInfo)
    (h : lookupKey ps nm = some info) :
    lookupKey (appendToBucket ps nm i) nm =
      some ⟨info.mapping_indices ++ [i], info.enabled⟩ := by
  induction ps with
  | nil => exact absurd h (by simp [lookupKey])
  | cons q qs ih =>
    rw [lookupKey] at h
    by_cases hq : q.1 = nm
    · rw [if_pos hq] at h
      rw [Option.some_inj] at h
      rw [appendToBucket, if_pos hq, lookupKey, if_pos hq, h]
    · rw [if_neg hq] at h
      rw [appendToBucket, if_neg hq, lookupKey, if_neg hq]
      exact ih h

theorem lookup_append_single_ne (ps : Projects) (nm nm' : String) (v : ProjectInfo)
    (h : nm' ≠ nm) : lookupKey (ps ++ [(nm, v)]) nm' = lookupKey ps nm' := by
  have hne : ¬ nm = nm' := fun hh => h hh.symm
  induction ps with
  | nil =>
    rw [List.nil_append, lookupKey, lookupKey, if_neg hne]
    rfl
  | cons q qs ih =>
    rw [List.cons_append, lookupKey, lookupKey]
    by_cases hq : q.1 = nm'
    · rw [if_pos hq, if_pos hq]
    · rw [if_neg hq, if_neg hq, ih]

theorem lookup_append_single_eq (ps : Projects) (nm : String) (v : ProjectInfo)
    (h : lookupKey ps nm = none) : lookupKey (ps ++ [(nm, v)]) nm = some v := by
  induction ps with
  | nil => simp [lookupKey]
  | cons q qs ih =>
    rw [lookupKey] at h
    by_cases hq : q.1 = nm
    · simp [hq] at h
    · simp only [hq, if_false] at h
      rw [List.cons_append, lookupKey]
      simp [hq, ih h]

theorem lookup_addMapping_ne (ps : Projects) (nm nm' : String) (e : Bool) (i : Nat)
    (h : nm' ≠ nm) : lookupKey (addMapping ps nm e i) nm' = lookupKey ps nm' := by
  rw [addMapping]
  by_cases hsome : (lookupKey ps nm).isSome = true
  · simp only [hsome, if_true]
    exact lookup_appendToBucket_ne ps nm nm' i h
  · have hb : (lookupKey ps nm).isSome = false := by
      cases hx : (lookupKey ps nm).isSome
      · rfl
      · exact absurd hx hsome
    simp only [hb, Bool.false_eq_true, if_false]
    exact lookup_append_single_ne ps nm nm' _ h

theorem lookup_addMapping_eq (ps : Projects) (nm : String) (e : Bool) (i : Nat) :
    lookupKey (addMapping ps nm e i) nm =
      some (match lookupKey ps nm with
            | some info => ⟨info.mapping_indices ++ [i], info.enabled⟩
            | none => ⟨[i], e⟩) := by
  rw [addMapping]
  cases hl : lookupKey ps nm with
  | some info =>
    have hsome : (lookupKey ps nm).isSome = true := by rw [hl]; rfl
    simp only [hsome, if_true]
    exact lookup_appendToBucket_eq ps nm i info hl
  | none =>
    have hb : (lookupKey ps nm).isSome = false := by rw [hl]; rfl
    simp only [hb, Bool.false_eq_true, if_false]
    exact lookup_append_single_eq ps nm _ hl

/-- The per-step preservation of the carried-over-enabled invariant. -/
theorem enabled_identifyStep (prev : PrevProjects) (ps : Projects) (i : Nat)
    (m : Option (PPath × PPath))
    (h : ∀ nm info, lookupKey ps nm = some info → nm ≠ unclassifiedProject →
      info.enabled = prevEnabled prev nm) :
    ∀ nm info, lookupKey (identifyStep prev ps i m) nm = some info →
      nm ≠ unclassifiedProject → info.enabled = prevEnabled prev nm := by
  intro nm info hlk hnm
  cases m with
  | none =>
    rw [identifyStep] at hlk
    have : lookupKey (addMapping ps unclassifiedProject true i) nm = lookupKey ps nm :=
      lookup_addMapping_ne ps unclassifiedProject nm true i hnm
    rw [this] at hlk
    exact h nm info hlk hnm
  | some st =>
    obtain ⟨s, t⟩ := st
    rw [identifyStep] at hlk
    by_cases hname : nm = extract_project_name s t
    · rw [← hname] at hlk
      rw [lookup_addMapping_eq] at hlk
      rw [Option.some_inj] at hlk
      cases hl : lookupKey ps nm with
      | some old =>
        rw [hl] at hlk
        have hold := h nm old hl hnm
        rw [← hlk]
        simpa using hold
      | none =>
        rw [hl] at hlk
        rw [← hlk]
    · rw [lookup_addMapping_ne ps _ nm _ i hname] at hlk
      exact h nm info hlk hnm

/-- Adding a mapping never removes an index from an existing bucket. -/
theorem mono_addMapping (ps : Projects) (nm nm' : String) (e : Bool) (i : Nat)
    (info : ProjectInfo) (h : lookupKey ps nm' = some info) :
    ∃ info', lookupKey (addMapping ps nm e i) nm' = some info' ∧
      ∀ x ∈ info.mapping_indices, x ∈ info'.mapping_indices := by
  by_cases hname : nm' = nm
  · refine ⟨_, by rw [hname]; exact lookup_addMapping_eq ps nm e i, ?_⟩
    rw [hname] at h
    rw [h]
    intro x hx
    simpa using Or.inl hx
  · exact ⟨info, by rw [lookup_addMapping_ne ps nm nm' e i hname]; exact h, fun x hx => hx⟩

theorem mono_identifyFrom (prev : PrevProjects) :
    ∀ (ms : List (Option (PPath × PPath))) (i : Nat) (ps : Projects) (nm : String)
      (info : ProjectInfo), lookupKey ps nm = some info →
      ∃ info', lookupKey (identifyFrom prev i ps ms) nm = some info' ∧
        ∀ x ∈ info.mapping_indices, x ∈ info'.mapping_indices := by
  intro ms
  induction ms with
  | nil => intro i ps nm info h; exact ⟨info, h, fun x hx => hx⟩
  | cons m rest ih =>
    intro i ps nm info h
    rw [identifyFrom]
    have hstep : ∃ info₁, lookupKey (identifyStep prev ps i m) nm = some info₁ ∧
        ∀ x ∈ info.mapping_indices, x ∈ info₁.mapping_indices := by
      cases m with
      | none => exact mono_addMapping ps unclassifiedProject nm true i info h
      | some st =>
        obtain ⟨s, t⟩ := st
        exact mono_addMapping ps (extract_project_name s t) nm _ i info h
    obtain ⟨info₁, h₁, hsub₁⟩ := hstep
    obtain ⟨info', h', hsub'⟩ := ih (i + 1) _ nm info₁ h₁
    exact ⟨info', h', fun x hx => hsub' x (hsub₁ x hx)⟩

/-- After `addMapping`, the touched bucket contains the new index. -/
theorem mem_addMapping_self (ps : Projects) (nm : String) (e : Bool) (i : Nat) :
    ∃ info, lookupKey (addMapping ps nm e i) nm = some info ∧ i ∈ info.mapping_indices := by
  refine ⟨_, lookup_addMapping_eq ps nm e i, ?_⟩
  cases lookupKey ps nm <;> simp

/-- Every mapping that raises lands in the default bucket. -/
theorem err_identifyFrom (prev : PrevProjects) :
    ∀ (ms : List (Option (PPath × PPath))) (i : Nat) (ps : Projects) (j : Nat),
      ms.get? j = some none →
      ∃ info, lookupKey (identifyFrom prev i ps ms) unclassifiedProject = some info ∧
        (i + j) ∈ info.mapping_indices := by
  intro ms
  induction ms with
  | nil => intro i ps j h; exact absurd h (by simp)
  | cons m rest ih =>
    intro i ps j h
    cases j with
    | zero =>
      rw [List.get?_cons_zero, Option.some_inj] at h
      subst h
      rw [identifyFrom]
      obtain ⟨info₁, h₁, hmem₁⟩ := mem_addMapping_self ps unclassifiedProject true i
      have hstep : lookupKey (identifyStep prev ps i none) unclassifiedProject = some info₁ := h₁
      obtain ⟨info', h', hsub'⟩ := mono_identifyFrom prev rest (i + 1) _ _ info₁ hstep
      exact ⟨info', h', by simpa using hsub' (i + 0) (by simpa using hmem₁)⟩
    | succ j =>
      rw [List.get?_cons_succ] at h
      rw [identifyFrom]
      obtain ⟨info', h', hmem'⟩ := ih (i + 1) (identifyStep prev ps i m) j h
      refine ⟨info', h', ?_⟩
      rwa [show i + 1 + j = i + (j + 1) by omega] at hmem'

theorem enabled_identifyFrom (prev : PrevProjects) :
    ∀ (ms : List (Option (PPath × PPath))) (i : Nat) (ps : Projects),
      (∀ nm info, lookupKey ps nm = some info → nm ≠ unclassifiedProject →
        info.enabled = prevEnabled prev nm) →
      ∀ nm info, lookupKey (identifyFrom prev i ps ms) nm = some info →
        nm ≠ unclassifiedProject → info.enabled = prevEnabled prev nm := by
  intro ms
  induction ms with
  | nil => intro i ps h; exact h
  | cons m rest ih =>
    intro i ps h
    rw [identifyFrom]
    exact ih (i + 1) _ (enabled_identifyStep prev ps i m h)

end IdentifyLemmas

section IdentifyTheorems

/-- C6 (amended): for every mapping list and previous project map,
`_identify_projects` assigns each mapping index to exactly one project bucket
(every index below the list's length occurs exactly once across all buckets,
and no other index occurs at all — the buckets partition `0..n-1`); every
bucket other than the default `"未分类项目"` bucket carries the previous
map's enabled value for its name when present (and `true` for a never-seen
name), the default bucket being created enabled regardless of the previous
map when an erroring mapping creates it first; and an error deriving the
name for one mapping places that index in the default bucket without
aborting the processing of the remaining mappings. -/
theorem c6_identify_projects (prev : PrevProjects) (ms : List (Option (PPath × PPath))) :
    (∀ x, countNat x (allIndices (identify_projects prev ms)) =
      if x < ms.length then 1 else 0) ∧
    (∀ nm info, lookupKey (identify_projects prev ms) nm = some info →
      nm ≠ unclassifiedProject → info.enabled = prevEnabled prev nm) ∧
    (∀ j, ms.get? j = some none →
      ∃ info, lookupKey (identify_projects prev ms) unclassifiedProject = some info ∧
        j ∈ info.mapping_indices) := by
  refine ⟨?_, ?_, ?_⟩
  · intro x
    have h0 : ∀ y, countNat y (allIndices ([] : Projects)) = if y < 0 then 1 else 0 := by
      intro y
      simp [allIndices, countNat]
    have := identifyFrom_count prev ms 0 [] h0 x
    simpa using this
  · exact enabled_identifyFrom prev ms 0 []
      (fun nm info h _ => absurd h (by simp [lookupKey]))
  · intro j hj
    have := err_identifyFrom prev ms 0 [] j hj
    simpa using this

/-- Source path of the C6 counterexample mapping. -/
def c6src : PPath := ⟨none, ["未分类项目", "a.txt"]⟩

/-- Target path of the C6 counterexample mapping. -/
def c6tgt : PPath := ⟨none, ["未分类项目"]⟩

/-- Previous project map of the C6 counterexample: the name that will be
derived for mapping 1 is present with `enabled = false`. -/
def c6prev : PrevProjects := [("未分类项目", some false)]

/-- Mapping list of the C6 counterexample: mapping 0 raises while being
processed, mapping 1 derives the default bucket's own name. -/
def c6ms : List (Option (PPath × PPath)) := [none, some (c6src, c6tgt)]

/-- C6 counterexample: mapping 1's derived project name coincides with the
default bucket name, that name appears in the previous project map with
`enabled = false`, yet — because the erroring mapping 0 created the bucket
first, enabled unconditionally — the resulting project is enabled: the claim
that a project whose derived name appears in the previous map always keeps
that map's enabled value is false on this input. -/
theorem c6_counterexample :
    extract_project_name c6src c6tgt = unclassifiedProject ∧
    prevEnabled c6prev unclassifiedProject = false ∧
    (lookupKey (identify_projects c6prev c6ms) unclassifiedProject).map ProjectInfo.enabled
      = some true := by
  exact ⟨by decide, by decide, by decide⟩

/-- Witness for `c6_identify_projects`: on the concrete mapping list the
erroring mapping 0 indeed lands in the default bucket. -/
theorem c6_identify_projects_witness :
    ∃ info, lookupKey (identify_projects c6prev c6ms) unclassifiedProject = some info ∧
      (0 : Nat) ∈ info.mapping_indices :=
  (c6_identify_projects c6prev c6ms).2.2 0 (by decide)

end IdentifyTheorems

/-! ## Enabled mappings — `ConfigManager.get_enabled_mappings`
    (src/config_manager.py lines 299-312) and `set_project_enabled`
    (lines 288-297). -/

/-- `self.projects[project_name]['enabled'] = enabled`: update the first
entry with that key. -/
def setEnabledFirst : Projects → String → Bool → Projects
  | [], _, _ => []
  | q :: qs, nm, e =>
    if q.1 = nm then (q.1, ⟨q.2.mapping_indices, e⟩) :: qs
    else q :: setEnabledFirst qs nm e

/-- `set_project_enabled` (lines 288-297): update the enabled flag only when
the project name is present. -/
def set_project_enabled (ps : Projects) (nm : String) (e : Bool) : Projects :=
  if (lookupKey ps nm).isSome then setEnabledFirst ps nm e else ps

/-- Lines 306-309: all mapping indices of the enabled projects, in dict
iteration order (before deduplication). -/
def enabledIndexList (ps : Projects) : List Nat :=
  ps.foldr (fun q acc => if q.2.enabled then q.2.mapping_indices ++ acc else acc) []

/-- Insertion into a strictly increasing list of naturals, dropping
duplicates. -/
def insertSorted (i : Nat) : List Nat → List Nat
  | [] => [i]
  | j :: rest =>
    if i < j then i :: j :: rest
    else if i = j then j :: rest
    else j :: insertSorted i rest

/-- `sorted(set(...))` (line 312): the distinct members in increasing
order. -/
def sortedDistinct (l : List Nat) : List Nat := l.foldr insertSorted []

/-- `get_enabled_mappings` (lines 299-312): union the enabled projects'
indices into a set, sort it, and index the mapping list, skipping
out-of-range indices (`if i < len(self.mappings)`). -/
def get_enabled_mappings {α : Type} (ps : Projects) (mappings : List α) : List α :=
  ((sortedDistinct (enabledIndexList ps)).filter
    (fun i => decide (i < mappings.length))).filterMap (fun i => mappings.get? i)

/-- Whether some enabled bucket of `ps` contains the index `i`. -/
def enabledIdx (ps : Projects) (i : Nat) : Bool :=
  ps.any (fun q => q.2.enabled && decide (i ∈ q.2.mapping_indices))

/-- Whether the bucket named `nm` contains the index `i`. -/
def memberIdx (ps : Projects) (nm : String) (i : Nat) : Bool :=
  match lookupKey ps nm with
  | some info => decide (i ∈ info.mapping_indices)
  | none => false

section EnabledLemmas

theorem mem_insertSorted (i x : Nat) : ∀ l : List Nat,
    x ∈ insertSorted i l ↔ x = i ∨ x ∈ l := by
  intro l
  induction l with
  | nil => simp [insertSorted]
  | cons j rest ih =>
    rw [insertSorted]
    rcases Nat.lt_trichotomy i j with h1 | h2 | h3
    · rw [if_pos h1]
      simp only [List.mem_cons]
    · rw [if_neg (by omega), if_pos h2]
      constructor
      · intro h
        exact Or.inr h
      · rintro (hx | hx)
        · rw [hx, h2]
          exact List.mem_cons_self j rest
        · exact hx
    · rw [if_neg (by omega), if_neg (by omega)]
      simp only [List.mem_cons, ih]
      tauto

theorem pairwise_insertSorted (i : Nat) : ∀ l : List Nat,
    l.Pairwise (· < ·) → (insertSorted i l).Pairwise (· < ·) := by
  intro l
  induction l with
  | nil => intro _; simp [insertSorted]
  | cons j rest ih =>
    intro h
    rw [List.pairwise_cons] at h
    obtain ⟨hj, hrest⟩ := h
    rw [insertSorted]
    rcases Nat.lt_trichotomy i j with h1 | h2 | h3
    · rw [if_pos h1, List.pairwise_cons]
      refine ⟨?_, List.pairwise_cons.mpr ⟨hj, hrest⟩⟩
      intro x hx
      rcases List.mem_cons.mp hx with hx | hx
      · omega
      · have := hj x hx; omega
    · rw [if_neg (by omega), if_pos h2]
      exact List.pairwise_cons.mpr ⟨hj, hrest⟩
    · rw [if_neg (by omega), if_neg (by omega), List.pairwise_cons]
      refine ⟨?_, ih hrest⟩
      intro x hx
      rcases (mem_insertSorted i x rest).mp hx with hx | hx
      · omega
      · exact hj x hx

theorem mem_sortedDistinct (x : Nat) : ∀ l : List Nat,
    x ∈ sortedDistinct l ↔ x ∈ l := by
  intro l
  induction l with
  | nil => simp [sortedDistinct]
  | cons y rest ih =>
    show x ∈ insertSorted y (sortedDistinct rest) ↔ _
    rw [mem_insertSorted, ih]
    simp [eq_comm]

theorem pairwise_sortedDistinct : ∀ l : List Nat,
    (sortedDistinct l).Pairwise (· < ·) := by
  intro l
  induction l with
  | nil => simp [sortedDistinct]
  | cons y rest ih => exact pairwise_insertSorted y (sortedDistinct rest) ih

theorem mem_enabledIndexList (x : Nat) : ∀ ps : Projects,
    x ∈ enabledIndexList ps ↔
      ∃ q ∈ ps, q.2.enabled = true ∧ x ∈ q.2.mapping_indices := by
  intro ps
  induction ps with
  | nil => simp [enabledIndexList]
  | cons q qs ih =>
    show x ∈ (if q.2.enabled then q.2.mapping_indices ++ enabledIndexList qs
        else enabledIndexList qs) ↔ _
    by_cases he : q.2.enabled
    · simp only [he, if_true, List.mem_append, ih]
      constructor
      · rintro (hx | ⟨q', hq', hx⟩)
        · exact ⟨q, List.mem_cons_self q qs, he, hx⟩
        · exact ⟨q', List.mem_cons_of_mem q hq', hx⟩
      · rintro ⟨q', hq', he', hx⟩
        rcases List.mem_cons.mp hq' with hq' | hq'
        · left; rw [← hq']; exact hx
        · right; exact ⟨q', hq', he', hx⟩
    · have he' : q.2.enabled = false := by
        cases hb : q.2.enabled
        · rfl
        · exact absurd hb he
      simp only [he', Bool.false_eq_true, if_false, ih]
      constructor
      · rintro ⟨q', hq', hen, hx⟩
        exact ⟨q', List.mem_cons_of_mem q hq', hen, hx⟩
      · rintro ⟨q', hq', hen, hx⟩
        rcases List.mem_cons.mp hq' with hq' | hq'
        · rw [hq'] at hen; rw [hen] at he'; cases he'
        · exact ⟨q', hq', hen, hx⟩

theorem enabledIdx_iff (ps : Projects) (i : Nat) :
    enabledIdx ps i = true ↔
      ∃ q ∈ ps, q.2.enabled = true ∧ i ∈ q.2.mapping_indices := by
  rw [enabledIdx, List.any_eq_true]
  constructor
  · rintro ⟨q, hq, hb⟩
    rw [Bool.and_eq_true, decide_eq_true_iff] at hb
    exact ⟨q, hq, hb.1, hb.2⟩
  · rintro ⟨q, hq, he, hx⟩
    exact ⟨q, hq, by rw [Bool.and_eq_true, decide_eq_true_iff]; exact ⟨he, hx⟩⟩

theorem nodup_of_pairwise_lt {l : List Nat} (h : l.Pairwise (· < ·)) : l.Nodup :=
  h.imp (fun hlt => Nat.ne_of_lt hlt)

/-- The index lists produced by the sorted-set pipeline and by filtering
`range` agree: both are the strictly increasing enumeration of the in-range
enabled indices. -/
theorem get_enabled_mappings_eq {α : Type} (ps : Projects) (mappings : List α) :
    get_enabled_mappings ps mappings =
      ((List.range mappings.length).filter (fun i => enabledIdx ps i)).filterMap
        (fun i => mappings.get? i) := by
  have hpairL : ((sortedDistinct (enabledIndexList ps)).filter
      (fun i => decide (i < mappings.length))).Pairwise (· < ·) :=
    (pairwise_sortedDistinct (enabledIndexList ps)).filter _
  have hpairR : ((List.range mappings.length).filter
      (fun i => enabledIdx ps i)).Pairwise (· < ·) :=
    (List.pairwise_lt_range mappings.length).filter _
  have hmem : ∀ x,
      x ∈ (sortedDistinct (enabledIndexList ps)).filter
        (fun i => decide (i < mappings.length)) ↔
      x ∈ (List.range mappings.length).filter (fun i => enabledIdx ps i) := by
    intro x
    rw [List.mem_filter, List.mem_filter, mem_sortedDistinct, mem_enabledIndexList,
      List.mem_range]
    rw [decide_eq_true_iff, ← enabledIdx_iff]
    tauto
  have hlist : (sortedDistinct (enabledIndexList ps)).filter
      (fun i => decide (i < mappings.length))
      = (List.range mappings.length).filter (fun i => enabledIdx ps i) := by
    apply List.eq_of_perm_of_sorted (r := (· ≤ ·))
    · exact (List.perm_ext_iff_of_nodup (nodup_of_pairwise_lt hpairL)
        (nodup_of_pairwise_lt hpairR)).mpr hmem
    · exact hpairL.imp Nat.le_of_lt
    · exact hpairR.imp Nat.le_of_lt
  rw [get_enabled_mappings, hlist]

theorem countNat_pos_iff (x : Nat) : ∀ l : List Nat, 0 < countNat x l ↔ x ∈ l := by
  intro l
  induction l with
  | nil => simp [countNat]
  | cons y rest ih =>
    rw [countNat]
    by_cases hy : y = x
    · simp [hy]
    · have hxy : ¬ x = y := fun h => hy h.symm
      rw [if_neg hy, Nat.zero_add, ih, List.mem_cons]
      constructor
      · intro h; right; exact h
      · rintro (h | h)
        · exact absurd h hxy
        · exact h

theorem mem_allIndices (x : Nat) : ∀ ps : Projects,
    x ∈ allIndices ps ↔ ∃ q ∈ ps, x ∈ q.2.mapping_indices := by
  intro ps
  induction ps with
  | nil => simp [allIndices]
  | cons q qs ih =>
    rw [allIndices_cons, List.mem_append, ih]
    constructor
    · rintro (hx | ⟨q', hq', hx⟩)
      · exact ⟨q, List.mem_cons_self q qs, hx⟩
      · exact ⟨q', List.mem_cons_of_mem q hq', hx⟩
    · rintro ⟨q', hq', hx⟩
      rcases List.mem_cons.mp hq' with hq' | hq'
      · left; rw [← hq']; exact hx
      · right; exact ⟨q', hq', hx⟩

theorem lookupKey_mem : ∀ (ps : Projects) (nm : String) (info : ProjectInfo),
    lookupKey ps nm = some info → (nm, info) ∈ ps := by
  intro ps
  induction ps with
  | nil => intro nm info h; exact absurd h (by simp [lookupKey])
  | cons q qs ih =>
    intro nm info h
    rw [lookupKey] at h
    by_cases hq : q.1 = nm
    · rw [if_pos hq, Option.some_inj] at h
      have heq : (nm, info) = q := by rw [← hq, ← h]
      rw [heq]
      exact List.mem_cons_self q qs
    · rw [if_neg hq] at h
      exact List.mem_cons_of_mem q (ih nm info h)

theorem enabledIdx_cons (q : String × ProjectInfo) (qs : Projects) (i : Nat) :
    enabledIdx (q :: qs) i =
      ((q.2.enabled && decide (i ∈ q.2.mapping_indices)) || enabledIdx qs i) := by
  rw [enabledIdx, enabledIdx, List.any_cons]

/-- Under the partition hypothesis, disabling the first bucket named `nm`
removes exactly that bucket's indices from the enabled set. -/
theorem toggle_enabledIdx : ∀ (ps : Projects) (nm : String) (i : Nat),
    countNat i (allIndices ps) ≤ 1 →
    enabledIdx (setEnabledFirst ps nm false) i =
      (enabledIdx ps i && !(memberIdx ps nm i)) := by
  intro ps
  induction ps with
  | nil => intro nm i _; rfl
  | cons q qs ih =>
    intro nm i hcount
    rw [allIndices_cons, countNat_append] at hcount
    by_cases hq : q.1 = nm
    · rw [setEnabledFirst, if_pos hq]
      have hmem : memberIdx (q :: qs) nm i = decide (i ∈ q.2.mapping_indices) := by
        rw [memberIdx, lookupKey, if_pos hq]
      rw [hmem]
      by_cases hin : i ∈ q.2.mapping_indices
      · have hq0 : 0 < countNat i q.2.mapping_indices :=
          (countNat_pos_iff i q.2.mapping_indices).mpr hin
        have hqs : enabledIdx qs i = false := by
          cases hb : enabledIdx qs i
          · rfl
          · obtain ⟨q', hq', _, hx⟩ := (enabledIdx_iff qs i).mp hb
            have hm : i ∈ allIndices qs := (mem_allIndices i qs).mpr ⟨q', hq', hx⟩
            have := (countNat_pos_iff i (allIndices qs)).mpr hm
            omega
        rw [enabledIdx_cons, enabledIdx_cons, hqs]
        simp [hin]
      · rw [enabledIdx_cons, enabledIdx_cons]
        simp [hin]
    · rw [setEnabledFirst, if_neg hq]
      have hmem : memberIdx (q :: qs) nm i = memberIdx qs nm i := by
        rw [memberIdx, memberIdx, lookupKey, if_neg hq]
      rw [hmem]
      have htail : countNat i (allIndices qs) ≤ 1 := by omega
      have hih := ih nm i htail
      rw [enabledIdx_cons, enabledIdx_cons, hih]
      by_cases hc : memberIdx qs nm i = true
      · -- the bucket named nm in qs holds i, so q's own indices cannot
        have hiq : ¬ i ∈ q.2.mapping_indices := by
          intro hin
          rw [memberIdx] at hc
          cases hl : lookupKey qs nm with
          | none => rw [hl] at hc; simp at hc
          | some info =>
            rw [hl] at hc
            rw [decide_eq_true_iff] at hc
            have hm : i ∈ allIndices qs :=
              (mem_allIndices i qs).mpr ⟨(nm, info), lookupKey_mem qs nm info hl, hc⟩
            have h1 := (countNat_pos_iff i (allIndices qs)).mpr hm
            have h2 := (countNat_pos_iff i q.2.mapping_indices).mpr hin
            omega
        simp [hc, hiq]
      · have hc' : memberIdx qs nm i = false := by
          cases hb : memberIdx qs nm i
          · rfl
          · exact absurd hb hc
        simp [hc']

end EnabledLemmas

section EnabledTheorems

/-- C8: under the partition invariant (each index below the mapping-list
length lies in exactly one bucket and no other index is stored), the
enabled-mappings query returns exactly the mappings whose unique project is
enabled, in the original index order — it equals indexing the mapping list
by the increasing enumeration of the enabled indices — and after toggling
one project's enabled flag to false the result is the same enumeration with
precisely that project's member indices removed, every mapping of the other
enabled projects being kept. -/
theorem c8_get_enabled_mappings {α : Type} (ps : Projects) (mappings : List α) (nm : String)
    (hpart : ∀ x, countNat x (allIndices ps) = if x < mappings.length then 1 else 0) :
    get_enabled_mappings ps mappings =
      ((List.range mappings.length).filter (fun i => enabledIdx ps i)).filterMap
        (fun i => mappings.get? i) ∧
    get_enabled_mappings (set_project_enabled ps nm false) mappings =
      ((List.range mappings.length).filter
        (fun i => enabledIdx ps i && !(memberIdx ps nm i))).filterMap
        (fun i => mappings.get? i) := by
  have hle : ∀ x, countNat x (allIndices ps) ≤ 1 := by
    intro x
    rw [hpart x]
    by_cases hx : x < mappings.length <;> simp [hx]
  refine ⟨get_enabled_mappings_eq ps mappings, ?_⟩
  rw [set_project_enabled]
  by_cases hsome : (lookupKey ps nm).isSome = true
  · rw [if_pos hsome, get_enabled_mappings_eq]
    have hfilter : (List.range mappings.length).filter
        (fun i => enabledIdx (setEnabledFirst ps nm false) i)
        = (List.range mappings.length).filter
          (fun i => enabledIdx ps i && !(memberIdx ps nm i)) := by
      apply List.filter_congr
      intro x _
      exact toggle_enabledIdx ps nm x (hle x)
    rw [hfilter]
  · have hb : (lookupKey ps nm).isSome = false := by
      cases hx : (lookupKey ps nm).isSome
      · rfl
      · exact absurd hx hsome
    rw [hb]
    simp only [Bool.false_eq_true, if_false]
    rw [get_enabled_mappings_eq]
    have hmem : memberIdx ps nm = fun _ => false := by
      funext i
      rw [memberIdx]
      cases hl : lookupKey ps nm with
      | some info => rw [hl] at hb; simp at hb
      | none => rfl
    rw [hmem]
    have hfilter : (List.range mappings.length).filter (fun i => enabledIdx ps i)
        = (List.range mappings.length).filter (fun i => enabledIdx ps i && !false) := by
      apply List.filter_congr
      intro x _
      simp
    rw [← hfilter]

/-- Projects used in the C8 witness: two singleton buckets, both enabled. -/
def c8ps : Projects := [("a", ⟨[0], true⟩), ("b", ⟨[1], true⟩)]

/-- Mapping list used in the C8 witness. -/
def c8maps : List String := ["x", "y"]

/-- Witness for `c8_get_enabled_mappings`: the theorem applied to concrete
projects and mappings, the partition hypothesis discharged by computation. -/
theorem c8_get_enabled_mappings_witness :
    get_enabled_mappings c8ps c8maps =
      ((List.range c8maps.length).filter (fun i => enabledIdx c8ps i)).filterMap
        (fun i => c8maps.get? i) ∧
    get_enabled_mappings (set_project_enabled c8ps "a" false) c8maps =
      ((List.range c8maps.length).filter
        (fun i => enabledIdx c8ps i && !(memberIdx c8ps "a" i))).filterMap
        (fun i => c8maps.get? i) :=
  c8_get_enabled_mappings c8ps c8maps "a" (by
    intro x
    have hall : allIndices c8ps = [0, 1] := rfl
    have hlen : c8maps.length = 2 := rfl
    rw [hall, hlen]
    rcases x with _ | _ | n
    · rfl
    · rfl
    · have h0 : ¬ (0 = n + 2) := by omega
      have h1 : ¬ (1 = n + 2) := by omega
      simp [countNat, h0, h1, show ¬ (n + 1 + 1 < 2) by omega])

end EnabledTheorems

/-! ## Configuration validation — `ConfigManager.validate_config`
    (src/config_manager.py lines 111-160). -/

/-- A mapping dict as read from the JSON file: the two required path fields
may be absent (checked at lines 127-132); the five behaviour fields may
carry arbitrary values, which lines 149-154 overwrite. -/
structure RawMapping where
  source_file : Option String
  target_dir : Option String
  open_dir : Option Bool
  wait_for_complete : Option Bool
  wait_timeout : Option ℚ
  check_interval : Option ℚ
  initial_delay : Option ℚ
deriving DecidableEq, Repr

/-- A mapping after a successful validation pass. -/
structure ValidMapping where
  source_file : String
  target_dir : String
  open_dir : Bool
  wait_for_complete : Bool
  wait_timeout : ℚ
  check_interval : ℚ
  initial_delay : ℚ
deriving DecidableEq, Repr

/-- One iteration of the validation loop (lines 122-154): both required
fields must be present (else `validate_config` returns false), the paths are
normalised by the ambient `Path.resolve` (lines 135-136, 146-147), and the
five behaviour fields are set to the fixed defaults regardless of their
input values (lines 150-154). -/
def validate_mapping (resolve : String → String) (m : RawMapping) : Option ValidMapping :=
  match m.source_file, m.target_dir with
  | some s, some t =>
    some { source_file := resolve s, target_dir := resolve t,
           open_dir := true, wait_for_complete := true,
           wait_timeout := 10, check_interval := 1/5, initial_delay := 1/2 }
  | _, _ => none

/-- The mapping pass of `validate_config` (lines 118-154): fail on the first
mapping lacking a required field, else rewrite every mapping in order. -/
def validate_config (resolve : String → String) : List RawMapping → Option (List ValidMapping)
  | [] => some []
  | m :: rest =>
    match validate_mapping resolve m with
    | none => none
    | some v =>
      match validate_config resolve rest with
      | none => none
      | some vs => some (v :: vs)

section ValidateTheorems

/-- C10: on every input configuration that validates successfully, every
loaded mapping has `open_dir = true`, `wait_for_complete = true`,
`wait_timeout = 10`, `check_interval = 0.2` and `initial_delay = 0.5`,
regardless of the values those fields held in the input — no loaded mapping
can run with the wait disabled or with non-default timing parameters. -/
theorem c10_validate_defaults (resolve : String → String) :
    ∀ (ms : List RawMapping) (out : List ValidMapping),
      validate_config resolve ms = some out →
      ∀ m ∈ out, m.open_dir = true ∧ m.wait_for_complete = true ∧
        m.wait_timeout = 10 ∧ m.check_interval = 1/5 ∧ m.initial_delay = 1/2 := by
  intro ms
  induction ms with
  | nil =>
    intro out h m hm
    rw [validate_config, Option.some_inj] at h
    rw [← h] at hm
    exact absurd hm (by simp)
  | cons r rest ih =>
    intro out h m hm
    rw [validate_config] at h
    cases hv : validate_mapping resolve r with
    | none => rw [hv] at h; cases h
    | some v =>
      rw [hv] at h
      cases hrest : validate_config resolve rest with
      | none => rw [hrest] at h; cases h
      | some vs =>
        rw [hrest, Option.some_inj] at h
        rw [← h] at hm
        rcases List.mem_cons.mp hm with hm | hm
        · rw [hm]
          rw [validate_mapping] at hv
          cases hs : r.source_file with
          | none => rw [hs] at hv; cases hv
          | some s =>
            cases ht : r.target_dir with
            | none => rw [hs, ht] at hv; cases hv
            | some t =>
              rw [hs, ht, Option.some_inj] at hv
              rw [← hv]
              exact ⟨rfl, rfl, rfl, rfl, rfl⟩
        · exact ih vs hrest m hm

/-- Raw mapping used in the C10 witness: every behaviour field carries a
non-default value that validation must overwrite. -/
def c10raw : RawMapping := ⟨some "a.txt", some "out", some false, some false,
  some 99, some 7, some 3⟩

/-- Witness for `c10_validate_defaults`: the theorem applied to a concrete
configuration whose input flags are all non-default, the validation-success
hypothesis discharged by evaluation. -/
theorem c10_validate_defaults_witness :
    ∃ out, validate_config (fun s => s) [c10raw] = some out ∧
      ∀ m ∈ out, m.open_dir = true ∧ m.wait_for_complete = true ∧
        m.wait_timeout = 10 ∧ m.check_interval = 1/5 ∧ m.initial_delay = 1/2 :=
  ⟨_, rfl, c10_validate_defaults (fun s => s) [c10raw] _ rfl⟩

end ValidateTheorems

end FileWatcher
